import Mathlib

/-!
Verification of the long-tail keyword monitor's core pipeline.

This file shallowly embeds the Python modules `query_generator.py`,
`anti_spider.py`, `search_executor.py`, `data_processor.py` and
`compare_analyzer.py` as executable Lean definitions, and proves or refutes
the frozen specification claims about them.

Modelling conventions:
* Python strings are `String`; Python's string comparison (lexicographic by
  code point) is embedded as the order `strLe` below, defined from scratch so
  that it evaluates inside the kernel.
* Python `list.sort()` / `sorted` results are produced with
  `List.insertionSort strLe`: any correct sort of the same multiset under
  the same total order yields the same list, so the choice of algorithm is
  immaterial.
* Python `set` values are represented by duplicate-free lists; `list(set(x))`
  has unspecified element order in Python, so facts about it are stated up to
  element membership (or after an explicit sort, exactly as the source code
  sorts them).
* Python floats are modelled by `ℚ`.  Every arithmetic step performed by the
  delay controller (×1.5, ×2, −0.5, clamping with min/max, starting values)
  stays inside dyadic rationals far below the 53-bit mantissa limit, so the
  `ℚ` model agrees exactly with the float computation.
* `round(x, 2)` is modelled as `(round (x*100))/100` over `ℚ`.
* Whitespace classes (`str.strip`, regex `\s`) are modelled by the ASCII
  whitespace characters.
-/

/-- ASCII whitespace as used by Python's `str.strip()` and regex `\s`
(restricted to ASCII; the claims never involve non-ASCII whitespace). -/
def isPySpace (c : Char) : Bool :=
  c = ' ' || c = '\t' || c = '\n' || c = '\x0d' || c = '\x0b' || c = '\x0c'

/-- Python `s.strip()`: remove leading and trailing whitespace. -/
def pyStrip (s : String) : String :=
  String.mk (((s.toList.dropWhile isPySpace).reverse.dropWhile isPySpace).reverse)

/-- First-occurrence deduplication, as produced by the Python idiom
`for x in xs: if x not in seen: seen.add(x); out.append(x)`. -/
def pyDedupGo (seen : List String) : List String → List String
  | [] => []
  | a :: rest => if a ∈ seen then pyDedupGo seen rest else a :: pyDedupGo (a :: seen) rest

def pyDedup (l : List String) : List String := pyDedupGo [] l

/-- Lexicographic comparison of char lists by code point, exactly Python's
string comparison. (Defined from scratch so that it evaluates inside the
kernel, unlike `String.decidableLE`.) -/
def listLE : List Char → List Char → Bool
  | [], _ => true
  | _ :: _, [] => false
  | a :: as, b :: bs =>
    if a.toNat < b.toNat then true
    else if b.toNat < a.toNat then false
    else listLE as bs

/-- Python's `s1 <= s2` on strings: lexicographic by code point. -/
def strLe (a b : String) : Prop := listLE a.toList b.toList = true

instance : DecidableRel strLe := fun a b => by unfold strLe; infer_instance

/-- `sorted(set(l))`: the duplicate-free, ascending enumeration of the
elements of `l`. This is the value of Python's `xs = list(set(l)); xs.sort()`. -/
def uniqueSorted (l : List String) : List String :=
  List.insertionSort strLe (pyDedup l)

theorem listLE_total (a b : List Char) : listLE a b = true ∨ listLE b a = true := by
  induction a generalizing b with
  | nil => left; rfl
  | cons x xs ih =>
    cases b with
    | nil => right; rfl
    | cons y ys =>
      by_cases hxy : x.toNat < y.toNat
      · left; simp [listLE, hxy]
      · by_cases hyx : y.toNat < x.toNat
        · right; simp [listLE, hyx]
        · rcases ih ys with h | h
          · left; simp [listLE, hxy, hyx, h]
          · right; simp [listLE, hxy, hyx, h]

theorem listLE_trans {a b c : List Char} (hab : listLE a b = true)
    (hbc : listLE b c = true) : listLE a c = true := by
  induction a generalizing b c with
  | nil => rfl
  | cons x xs ih =>
    cases b with
    | nil => simp [listLE] at hab
    | cons y ys =>
      cases c with
      | nil => simp [listLE] at hbc
      | cons z zs =>
        simp only [listLE] at hab hbc ⊢
        split_ifs at hab hbc ⊢ <;> first
          | rfl
          | exact ih hab hbc
          | omega

theorem listLE_antisymm {a b : List Char} (hab : listLE a b = true)
    (hba : listLE b a = true) : a = b := by
  induction a generalizing b with
  | nil => cases b with
    | nil => rfl
    | cons y ys => simp [listLE] at hba
  | cons x xs ih =>
    cases b with
    | nil => simp [listLE] at hab
    | cons y ys =>
      simp only [listLE] at hab hba
      split_ifs at hab hba with h1 h2
      · omega
      · have hxy : x = y :=
          Char.eq_of_val_eq (UInt32.ext (by omega : x.toNat = y.toNat))
        rw [hxy, ih hab hba]

instance : IsTotal String strLe := ⟨fun a b => listLE_total a.toList b.toList⟩

instance : IsTrans String strLe := ⟨fun _ _ _ hab hbc => listLE_trans hab hbc⟩

instance : IsAntisymm String strLe :=
  ⟨fun _ _ hab hba => String.toList_inj.mp (listLE_antisymm hab hba)⟩

theorem mem_pyDedupGo (x : String) (seen l : List String) :
    x ∈ pyDedupGo seen l ↔ x ∈ l ∧ x ∉ seen := by
  induction l generalizing seen with
  | nil => simp [pyDedupGo]
  | cons a rest ih =>
    simp only [pyDedupGo]
    by_cases ha : a ∈ seen
    · rw [if_pos ha]
      rw [ih seen]
      simp only [List.mem_cons]
      constructor
      · tauto
      · rintro ⟨rfl | hx, hs⟩
        · exact absurd ha hs
        · exact ⟨hx, hs⟩
    · rw [if_neg ha]
      simp only [List.mem_cons, ih (a :: seen), List.mem_cons, not_or]
      by_cases hxa : x = a
      · subst hxa; tauto
      · tauto

theorem nodup_pyDedupGo (seen l : List String) : (pyDedupGo seen l).Nodup := by
  induction l generalizing seen with
  | nil => simp [pyDedupGo]
  | cons a rest ih =>
    by_cases ha : a ∈ seen
    · simpa [pyDedupGo, if_pos ha] using ih seen
    · simp only [pyDedupGo, if_neg ha, List.nodup_cons]
      refine ⟨fun hmem => ?_, ih (a :: seen)⟩
      exact ((mem_pyDedupGo a (a :: seen) rest).mp hmem).2 (List.mem_cons_self a seen)

theorem mem_pyDedup {x : String} {l : List String} : x ∈ pyDedup l ↔ x ∈ l := by
  simp [pyDedup, mem_pyDedupGo]

theorem nodup_pyDedup (l : List String) : (pyDedup l).Nodup := nodup_pyDedupGo [] l

theorem sorted_uniqueSorted (l : List String) : List.Sorted strLe (uniqueSorted l) :=
  List.sorted_insertionSort strLe (pyDedup l)

theorem nodup_uniqueSorted (l : List String) : (uniqueSorted l).Nodup :=
  ((List.perm_insertionSort strLe (pyDedup l)).nodup_iff).mpr (nodup_pyDedup l)

theorem mem_uniqueSorted {x : String} {l : List String} :
    x ∈ uniqueSorted l ↔ x ∈ l := by
  rw [uniqueSorted, (List.perm_insertionSort strLe (pyDedup l)).mem_iff, mem_pyDedup]

/-- `sorted(set(·))` only depends on the underlying set of elements. -/
theorem uniqueSorted_eq_of_mem_iff {l₁ l₂ : List String}
    (h : ∀ x, x ∈ l₁ ↔ x ∈ l₂) : uniqueSorted l₁ = uniqueSorted l₂ := by
  have hfs : (pyDedup l₁).toFinset = (pyDedup l₂).toFinset := by
    ext x
    simp [List.mem_toFinset, mem_pyDedup, h x]
  have hperm : List.Perm (pyDedup l₁) (pyDedup l₂) :=
    List.perm_of_nodup_nodup_toFinset_eq (nodup_pyDedup l₁) (nodup_pyDedup l₂) hfs
  exact List.eq_of_perm_of_sorted
    (((List.perm_insertionSort strLe (pyDedup l₁)).trans hperm).trans
      (List.perm_insertionSort strLe (pyDedup l₂)).symm)
    (List.sorted_insertionSort strLe (pyDedup l₁))
    (List.sorted_insertionSort strLe (pyDedup l₂))

/-! ### Query generator (`src/query_generator.py`) -/

/-- Python `string.ascii_lowercase`. -/
def lowercaseLetters : List Char := "abcdefghijklmnopqrstuvwxyz".toList

/-- The `search_settings` dictionary of `QueryGenerator`.  The last two field
names end in `_suffixes`/`_prefixes`; in the source they are the singular
`include_suffix` and (the corresponding one for front letters). -/
structure SearchSettings where
  include_single_letters : Bool
  include_double_letters : Bool
  include_suffixes : Bool
  include_prefixes : Bool
deriving DecidableEq

/-- The default settings built in `QueryGenerator.__init__`: everything on. -/
def defaultSettings : SearchSettings := ⟨true, true, true, true⟩

/-- `QueryGenerator._generate_single_letter_queries`: for each letter a–z,
append `f"{main_keyword} {letter}"` when suffixes are enabled and
`f"{letter} {main_keyword}"` when front letters are enabled. -/
def singleLetterQueries (st : SearchSettings) (k : String) : List String :=
  lowercaseLetters.flatMap fun c =>
    (if st.include_suffixes then [k ++ " " ++ c.toString] else []) ++
    (if st.include_prefixes then [c.toString ++ " " ++ k] else [])

/-- `QueryGenerator._generate_double_letter_queries`: the same for every
ordered pair aa–zz. -/
def doubleLetterQueries (st : SearchSettings) (k : String) : List String :=
  lowercaseLetters.flatMap fun c1 =>
    lowercaseLetters.flatMap fun c2 =>
      (if st.include_suffixes then [k ++ " " ++ (c1.toString ++ c2.toString)] else []) ++
      (if st.include_prefixes then [(c1.toString ++ c2.toString) ++ " " ++ k] else [])

/-- The `queries` list built by `QueryGenerator.generate_all_queries` before
the final `list(set(...))` / `.sort()`: the base keyword, then the single- and
double-letter combinations gated by their settings. -/
def rawQueries (st : SearchSettings) (k : String) : List String :=
  [k] ++ (if st.include_single_letters then singleLetterQueries st k else []) ++
    (if st.include_double_letters then doubleLetterQueries st k else [])

/-- `QueryGenerator.generate_all_queries`: deduplicate and sort. -/
def generate_all_queries (st : SearchSettings) (k : String) : List String :=
  uniqueSorted (rawQueries st k)

/-- One of the spec's four "expansion axes" combinations.  Field names use
`SuffixAxis`-style endings; they mean: single-letter behind the seed,
single-letter in front of the seed, letter-pair behind, letter-pair in front. -/
structure ExpansionAxes where
  singleSuffixAxis : Bool
  singleFrontAxis : Bool
  doubleSuffixAxis : Bool
  doubleFrontAxis : Bool
deriving DecidableEq

/-- Which axes a given configuration actually enables: an axis is on exactly
when its length switch and its side switch are both on. -/
def axesOf (st : SearchSettings) : ExpansionAxes :=
  ⟨st.include_single_letters && st.include_suffixes,
   st.include_single_letters && st.include_prefixes,
   st.include_double_letters && st.include_suffixes,
   st.include_double_letters && st.include_prefixes⟩

/-- All ordered letter pairs aa–zz as strings. -/
def letterPairs : List String :=
  lowercaseLetters.flatMap fun c1 => lowercaseLetters.map fun c2 => c1.toString ++ c2.toString

/-- Modelled from the spec: the reference expansion "determined by the enabled
axes" — the bare seed, then each enabled axis's block of probe queries. -/
def specExpansion (a : ExpansionAxes) (k : String) : List String :=
  [k] ++ (if a.singleSuffixAxis then lowercaseLetters.map fun c => k ++ " " ++ c.toString else []) ++
    (if a.singleFrontAxis then lowercaseLetters.map fun c => c.toString ++ " " ++ k else []) ++
    (if a.doubleSuffixAxis then letterPairs.map fun d => k ++ " " ++ d else []) ++
    (if a.doubleFrontAxis then letterPairs.map fun d => d ++ " " ++ k else [])

/-- All sixteen possible `search_settings` configurations. -/
def allSettings : List SearchSettings :=
  [false, true].flatMap fun a => [false, true].flatMap fun b =>
    [false, true].flatMap fun c => [false, true].map fun d => ⟨a, b, c, d⟩

theorem allSettings_complete (st : SearchSettings) : st ∈ allSettings := by
  obtain ⟨a, b, c, d⟩ := st
  cases a <;> cases b <;> cases c <;> cases d <;> decide

theorem flatMap_pair_perm {α β : Type} (l : List α) (f g : α → β) (bf bg : Bool) :
    List.Perm (l.flatMap fun c => (if bf then [f c] else []) ++ (if bg then [g c] else []))
      ((if bf then l.map f else []) ++ (if bg then l.map g else [])) := by
  cases bf <;> cases bg
  · simp
  · exact List.Perm.of_eq (by simp [List.map_eq_flatMap])
  · exact List.Perm.of_eq (by simp [List.map_eq_flatMap])
  · have h := (List.flatMap_append_perm l (fun c => [f c]) (fun c => [g c])).symm
    simpa [← List.map_eq_flatMap] using h

theorem singleLetterQueries_perm (st : SearchSettings) (k : String) :
    List.Perm (singleLetterQueries st k)
      ((if st.include_suffixes then lowercaseLetters.map fun c => k ++ " " ++ c.toString else []) ++
       (if st.include_prefixes then lowercaseLetters.map fun c => c.toString ++ " " ++ k else [])) :=
  flatMap_pair_perm lowercaseLetters _ _ _ _

theorem doubleLetterQueries_perm (st : SearchSettings) (k : String) :
    List.Perm (doubleLetterQueries st k)
      ((if st.include_suffixes then letterPairs.map fun d => k ++ " " ++ d else []) ++
       (if st.include_prefixes then letterPairs.map fun d => d ++ " " ++ k else [])) := by
  have h1 : List.Perm (doubleLetterQueries st k)
      (lowercaseLetters.flatMap fun c1 =>
        (if st.include_suffixes then
          lowercaseLetters.map fun c2 => k ++ " " ++ (c1.toString ++ c2.toString) else []) ++
        (if st.include_prefixes then
          lowercaseLetters.map fun c2 => (c1.toString ++ c2.toString) ++ " " ++ k else [])) :=
    List.Perm.flatMap_left lowercaseLetters fun c1 _ => flatMap_pair_perm lowercaseLetters _ _ _ _
  refine h1.trans ?_
  refine ((List.flatMap_append_perm lowercaseLetters _ _).symm).trans ?_
  have e1 : (lowercaseLetters.flatMap fun c1 =>
      (if st.include_suffixes then
        lowercaseLetters.map fun c2 => k ++ " " ++ (c1.toString ++ c2.toString) else [])) =
      (if st.include_suffixes then letterPairs.map fun d => k ++ " " ++ d else []) := by
    cases hsu : st.include_suffixes <;> simp [letterPairs, List.map_flatMap, List.map_map,
      Function.comp_def]
  have e2 : (lowercaseLetters.flatMap fun c1 =>
      (if st.include_prefixes then
        lowercaseLetters.map fun c2 => (c1.toString ++ c2.toString) ++ " " ++ k else [])) =
      (if st.include_prefixes then letterPairs.map fun d => d ++ " " ++ k else []) := by
    cases hpr : st.include_prefixes <;> simp [letterPairs, List.map_flatMap, List.map_map,
      Function.comp_def]
  rw [e1, e2]

theorem rawQueries_perm_specExpansion (st : SearchSettings) (k : String) :
    List.Perm (rawQueries st k) (specExpansion (axesOf st) k) := by
  have hs : List.Perm (if st.include_single_letters then singleLetterQueries st k else [])
      ((if st.include_single_letters && st.include_suffixes then
          lowercaseLetters.map fun c => k ++ " " ++ c.toString else []) ++
       (if st.include_single_letters && st.include_prefixes then
          lowercaseLetters.map fun c => c.toString ++ " " ++ k else [])) := by
    cases hsl : st.include_single_letters
    · simp
    · simpa using singleLetterQueries_perm st k
  have hd : List.Perm (if st.include_double_letters then doubleLetterQueries st k else [])
      ((if st.include_double_letters && st.include_suffixes then
          letterPairs.map fun d => k ++ " " ++ d else []) ++
       (if st.include_double_letters && st.include_prefixes then
          letterPairs.map fun d => d ++ " " ++ k else [])) := by
    cases hdl : st.include_double_letters
    · simp
    · simpa using doubleLetterQueries_perm st k
  simp only [rawQueries, specExpansion, axesOf, List.cons_append, List.nil_append,
    List.append_assoc]
  exact List.Perm.cons k ((hs.append hd).trans (by rw [List.append_assoc]))

theorem generate_eq_specExpansion (st : SearchSettings) (k : String) :
    generate_all_queries st k = uniqueSorted (specExpansion (axesOf st) k) :=
  uniqueSorted_eq_of_mem_iff fun _ => (rawQueries_perm_specExpansion st k).mem_iff

theorem length_flatMap_pair {α β : Type} (l : List α) (f g : α → β) :
    (l.flatMap fun c => [f c] ++ [g c]).length = 2 * l.length := by
  induction l with
  | nil => rfl
  | cons a rest ih => simp only [List.flatMap_cons, List.length_append, ih]; simp; omega

theorem length_singleLetterQueries_default (k : String) :
    (singleLetterQueries defaultSettings k).length = 52 := by
  have h := length_flatMap_pair lowercaseLetters
    (fun c => k ++ " " ++ c.toString) (fun c => c.toString ++ " " ++ k)
  simpa [singleLetterQueries, defaultSettings] using h

theorem length_doubleLetterQueries_default (k : String) :
    (doubleLetterQueries defaultSettings k).length = 1352 := by
  simp only [doubleLetterQueries, defaultSettings, if_true, List.length_flatMap,
    Function.comp_def, List.singleton_append, List.length_cons, List.length_nil]
  decide

theorem length_rawQueries_default (k : String) :
    (rawQueries defaultSettings k).length = 1405 := by
  have h1 := length_singleLetterQueries_default k
  have h2 := length_doubleLetterQueries_default k
  simp only [defaultSettings] at h1 h2
  simp [rawQueries, defaultSettings, h1, h2]

theorem generate_no_letters (su pr : Bool) (k : String) :
    generate_all_queries ⟨false, false, su, pr⟩ k = [k] := by
  simp [generate_all_queries, rawQueries, uniqueSorted, pyDedup, pyDedupGo,
    List.insertionSort, List.orderedInsert]

set_option maxRecDepth 10000 in
/-- C1, amended.  For every seed: with the default (all-on) configuration the
pre-deduplication query list has exactly 1 + 52 + 1352 = 1405 entries and the
returned list is duplicate-free and ascending; with both letter switches off
the result is exactly `[seed]`; and, in general, generation equals the
reference expansion of the axes determined by the configuration, where an axis
(letter-count, side) is enabled exactly when its letter-count switch and its
side switch are both on — the four axes are therefore generated from the four
configuration switches `include_single_letters`, `include_double_letters`,
`include_suffix`, and the front-letter switch, not toggled one axis at a time. -/
theorem C1_generate_queries (st : SearchSettings) (k : String) :
    (rawQueries defaultSettings k).length = 1405 ∧
    (generate_all_queries defaultSettings k).Nodup ∧
    List.Sorted strLe (generate_all_queries defaultSettings k) ∧
    (∀ su pr : Bool, generate_all_queries ⟨false, false, su, pr⟩ k = [k]) ∧
    generate_all_queries st k = uniqueSorted (specExpansion (axesOf st) k) :=
  ⟨length_rawQueries_default k, nodup_uniqueSorted _, sorted_uniqueSorted _,
    fun su pr => generate_no_letters su pr k, generate_eq_specExpansion st k⟩

set_option maxRecDepth 10000 in
/-- C1 counterexample.  The four expansion axes are not independently
toggleable: among all sixteen configurations there is none that (for seed
`"k"`) produces the single-letter-suffix queries (`"k a"`) and the
double-letter-front queries (`"aa k"`) while omitting the
single-letter-front queries (`"a k"`), because one switch pair controls
single and double letters and the other controls the two sides. -/
theorem C1_counterexample :
    (allSettings.all fun st =>
      !(((rawQueries st "k").contains "k a") &&
        ((rawQueries st "k").contains "aa k") &&
        !((rawQueries st "k").contains "a k"))) = true ∧
    allSettings.length = 16 := by
  exact ⟨by decide, by decide⟩

/-- The `invalid_chars` list of `QueryGenerator.validate_keyword`:
angle brackets, double quote (34), single quote (39), ampersand, percent. -/
def invalidChars : List Char := ['<', '>', Char.ofNat 34, Char.ofNat 39, '&', '%']

/-- `QueryGenerator.validate_keyword`.  Note the order of operations in the
source: the keyword is stripped first, and the length and character checks run
on the stripped keyword. -/
def validate_keyword (k : String) : Bool × String :=
  if pyStrip k = "" then (false, "关键词不能为空")
  else
    let t := pyStrip k
    if 100 < t.length then (false, "关键词长度不能超过100个字符")
    else
      match invalidChars.find? (fun c => t.toList.contains c) with
      | some c => (false, "关键词包含无效字符: " ++ c.toString)
      | none => (true, "")

theorem toList_mk (l : List Char) : (String.mk l).toList = l := rfl

theorem mem_dropWhile_of_not {α : Type} (p : α → Bool) {l : List α} {c : α}
    (hc : ¬ p c = true) (h : c ∈ l) : c ∈ l.dropWhile p := by
  induction l with
  | nil => cases h
  | cons a rest ih =>
    rw [List.dropWhile_cons]
    by_cases hpa : p a = true
    · rw [if_pos hpa]
      rcases List.mem_cons.mp h with rfl | hm
      · exact absurd hpa hc
      · exact ih hm
    · rw [if_neg hpa]
      exact h

theorem mem_of_mem_pyStrip {c : Char} {s : String} (h : c ∈ (pyStrip s).toList) :
    c ∈ s.toList := by
  simp only [pyStrip, toList_mk, List.mem_reverse] at h
  exact (List.dropWhile_sublist _).mem ((List.mem_reverse).mp ((List.dropWhile_sublist _).mem h))

theorem mem_pyStrip_of_not_space {c : Char} {s : String} (hc : ¬ isPySpace c = true)
    (h : c ∈ s.toList) : c ∈ (pyStrip s).toList := by
  simp only [pyStrip, toList_mk, List.mem_reverse]
  exact mem_dropWhile_of_not isPySpace hc
    ((List.mem_reverse).mpr (mem_dropWhile_of_not isPySpace hc h))

theorem pyStrip_length_le (s : String) : (pyStrip s).length ≤ s.length := by
  have h1 : (pyStrip s).toList.length ≤ s.toList.length := by
    simp only [pyStrip, toList_mk, List.length_reverse]
    calc ((s.toList.dropWhile isPySpace).reverse.dropWhile isPySpace).length
        ≤ (s.toList.dropWhile isPySpace).reverse.length := (List.dropWhile_sublist _).length_le
      _ = (s.toList.dropWhile isPySpace).length := List.length_reverse _
      _ ≤ s.toList.length := (List.dropWhile_sublist _).length_le
  exact h1

theorem pyStrip_ne_empty_iff {s : String} :
    ¬ pyStrip s = "" ↔ (s.toList.any fun c => !(isPySpace c)) = true := by
  constructor
  · intro h
    by_contra hany
    apply h
    have hall : ∀ c ∈ s.toList, isPySpace c = true := by
      intro c hc
      by_contra hns
      exact hany (List.any_eq_true.mpr ⟨c, hc, by simpa using hns⟩)
    have h1 : List.dropWhile isPySpace s.data = [] := List.dropWhile_eq_nil_iff.mpr hall
    simp [pyStrip, h1]
  · intro h hempty
    rcases List.any_eq_true.mp h with ⟨c, hcs, hvc⟩
    have hmem := mem_pyStrip_of_not_space (by simpa using hvc) hcs
    rw [hempty] at hmem
    cases hmem

theorem invalidChars_not_space {c : Char} (hc : c ∈ invalidChars) :
    ¬ isPySpace c = true := by
  fin_cases hc <;> decide

theorem validate_fst_iff (k : String) :
    (validate_keyword k).fst = true ↔
      ((k.toList.any fun c => !(isPySpace c)) = true ∧
       (pyStrip k).length ≤ 100 ∧
       (invalidChars.all fun c => !(k.toList.contains c)) = true) := by
  by_cases h1 : pyStrip k = ""
  · apply iff_of_false
    · simp [validate_keyword, h1]
    · rintro ⟨hany, -, -⟩
      exact (pyStrip_ne_empty_iff.mpr hany) h1
  · by_cases h2 : 100 < (pyStrip k).length
    · apply iff_of_false
      · simp [validate_keyword, h1, h2]
      · rintro ⟨-, hle, -⟩
        omega
    · cases hf : invalidChars.find? (fun c => (pyStrip k).toList.contains c) with
      | some c =>
        have hcmem : c ∈ invalidChars := List.mem_of_find?_eq_some hf
        have hmemb := List.find?_some hf
        have hck : c ∈ k.toList :=
          mem_of_mem_pyStrip (by simpa using hmemb)
        apply iff_of_false
        · simp only [validate_keyword, if_neg h1, if_neg h2, hf]
          simp
        · rintro ⟨-, -, hallc⟩
          have hnc := List.all_eq_true.mp hallc c hcmem
          simp at hnc
          exact hnc hck
      | none =>
        apply iff_of_true
        · simp only [validate_keyword, if_neg h1, if_neg h2, hf]
        · refine ⟨pyStrip_ne_empty_iff.mp h1, by omega, ?_⟩
          apply List.all_eq_true.mpr
          intro c hc
          have hnone := List.find?_eq_none.mp hf c hc
          simp at hnone ⊢
          intro hck
          exact hnone (mem_pyStrip_of_not_space (invalidChars_not_space hc) hck)

theorem validate_failure_has_reason (k : String) :
    (validate_keyword k).fst = true ∨ ¬ (validate_keyword k).snd = "" := by
  by_cases h1 : pyStrip k = ""
  · right
    simp [validate_keyword, h1]
  · by_cases h2 : 100 < (pyStrip k).length
    · right
      simp [validate_keyword, h1, h2]
    · cases hf : invalidChars.find? (fun c => (pyStrip k).toList.contains c) with
      | some c =>
        right
        simp only [validate_keyword, if_neg h1, if_neg h2, hf]
        intro h
        have hd := congrArg String.data h
        rw [String.data_append] at hd
        simp at hd
      | none =>
        left
        simp only [validate_keyword, if_neg h1, if_neg h2, hf]

/-- C7, amended.  `validate_keyword` accepts a seed exactly when it contains a
non-whitespace character, its whitespace-stripped form has at most 100
characters, and it contains none of the forbidden characters; every rejection
carries a non-empty reason string.  In particular `validate("")` and
`validate(" ")` fail and a 100-character clean seed succeeds.  (The source
strips the seed before measuring, so the length bound applies to the stripped
seed, not the raw one.) -/
theorem C7_validate_keyword (k : String) :
    ((validate_keyword k).fst = true ↔
      ((k.toList.any fun c => !(isPySpace c)) = true ∧
       (pyStrip k).length ≤ 100 ∧
       (invalidChars.all fun c => !(k.toList.contains c)) = true)) ∧
    (validate_keyword "").fst = false ∧
    (validate_keyword " ").fst = false ∧
    (validate_keyword (String.mk (List.replicate 100 'a'))).fst = true ∧
    ((validate_keyword k).fst || !((validate_keyword k).snd == "")) = true := by
  refine ⟨validate_fst_iff k, by decide, by decide, by decide, ?_⟩
  rcases validate_failure_has_reason k with h | h
  · simp [h]
  · simp [h]

/-- C7 counterexample.  The claim "every seed longer than 100 characters is
rejected" fails: a 101-character seed consisting of a space followed by 100
letters is accepted, because the source strips whitespace before checking the
length. -/
theorem C7_counterexample :
    (String.mk (' ' :: List.replicate 100 'a')).length = 101 ∧
    (validate_keyword (String.mk (' ' :: List.replicate 100 'a'))).fst = true := by
  exact ⟨by decide, by decide⟩

/-! ### Anti-detection layer (`src/anti_spider.py`) -/

/-- `ProxyInfo` dataclass state.  Timestamps are integer seconds (`datetime`
differences only ever get compared against the 10-minute cooldown). -/
structure ProxyInfo where
  is_working : Bool
  last_used : ℤ
  failure_count : ℕ
  response_time : ℚ
deriving DecidableEq

/-- `ProxyPool.max_failures`. -/
def maxFailures : ℕ := 3

/-- `ProxyPool.cooldown_minutes`, converted to seconds. -/
def cooldownSeconds : ℤ := 600

/-- A freshly parsed proxy (`ProxyInfo.__post_init__` stamps `last_used`). -/
def initProxy (now : ℤ) : ProxyInfo :=
  { is_working := true, last_used := now, failure_count := 0, response_time := 0 }

/-- `ProxyPool.mark_proxy_failed`: bump the counter; the proxy stays working
only while the counter is below the threshold. -/
def mark_proxy_failed (p : ProxyInfo) : ProxyInfo :=
  { p with failure_count := p.failure_count + 1,
           is_working := decide (p.failure_count + 1 < maxFailures) }

/-- `ProxyPool.mark_proxy_success`. -/
def mark_proxy_success (now : ℤ) (rt : ℚ) (p : ProxyInfo) : ProxyInfo :=
  { p with failure_count := 0, is_working := true, response_time := rt, last_used := now }

/-- `ProxyPool._is_proxy_available`.  Returns the decision together with the
(possibly mutated) proxy record: when the threshold is reached and the
cooldown has elapsed the failure counter is reset in place, and the method
then returns `proxy.is_working` for the reset record. -/
def is_proxy_available (now : ℤ) (p : ProxyInfo) : Bool × ProxyInfo :=
  if maxFailures ≤ p.failure_count then
    if now - p.last_used < cooldownSeconds then (false, p)
    else
      let p2 := { p with failure_count := 0 }
      (p2.is_working, p2)
  else (p.is_working, p)

/-- One scan step of `ProxyPool.get_working_proxy`: try up to `fuel` slots
round-robin from `idx`, persisting any in-place mutation made by the
availability check, stamping `last_used` on the proxy that gets picked. -/
def getWorkingProxyGo (now : ℤ) : ℕ → List ProxyInfo → ℕ → Option ℕ × List ProxyInfo × ℕ
  | 0, pool, idx => (none, pool, idx)
  | fuel + 1, pool, idx =>
    match pool[idx]? with
    | none => (none, pool, idx)
    | some p =>
      let next := (idx + 1) % pool.length
      let r := is_proxy_available now p
      let pool2 := pool.set idx r.2
      if r.1 then (some idx, pool2.set idx { r.2 with last_used := now }, next)
      else getWorkingProxyGo now fuel pool2 next

/-- `ProxyPool.get_working_proxy`: scan every slot once starting at
`current_index`; answer is the selected slot (if any), the updated pool and
the updated `current_index`. -/
def get_working_proxy (now : ℤ) (pool : List ProxyInfo) (idx : ℕ) :
    Option ℕ × List ProxyInfo × ℕ :=
  if pool.isEmpty then (none, pool, idx)
  else getWorkingProxyGo now pool.length pool idx

/-- The proxy obtained by reporting three consecutive failures on a fresh
proxy parsed at time 0. -/
def proxyAfterThreeFailures : ProxyInfo :=
  mark_proxy_failed (mark_proxy_failed (mark_proxy_failed (initProxy 0)))

/-- C2: the cooldown reprieve never happens.  After three consecutive
failures the proxy is ineligible inside the 10-minute window (as claimed),
and once the window has elapsed the next availability check does reset the
failure counter to 0 — but the check still answers `false`, because it
returns the record's `is_working` flag, which was permanently cleared by the
third `mark_proxy_failed` and is only ever set again by
`mark_proxy_success` (unreachable for a proxy that is never selected).  So
the proxy can never be selected again, contradicting the claim. -/
theorem C2_proxy_cooldown_bug :
    proxyAfterThreeFailures.failure_count = 3 ∧
    proxyAfterThreeFailures.is_working = false ∧
    (is_proxy_available 300 proxyAfterThreeFailures).fst = false ∧
    (is_proxy_available 601 proxyAfterThreeFailures).fst = false ∧
    (is_proxy_available 601 proxyAfterThreeFailures).snd.failure_count = 0 ∧
    (get_working_proxy 601 [proxyAfterThreeFailures] 0).fst = none := by
  exact ⟨by decide, by decide, by decide, by decide, by decide, by decide⟩

/-- `RequestDelayManager` mutable state: the current `(min, max)` delay
window and the consecutive-failure counter. -/
structure DelayState where
  cur_min : ℚ
  cur_max : ℚ
  consecutive_failures : ℕ
deriving DecidableEq

/-- The status codes treated as rate-limit/unavailable (`[429, 503]`). -/
def rateLimitCodes : List ℕ := [429, 503]

/-- `RequestDelayManager.on_success`: reset the failure streak; when dynamic
delay is on and the current minimum still exceeds the base minimum, shrink
both bounds by 0.5, clamped below by the corresponding base bound. -/
def on_success (base : ℚ × ℚ) (dynamic : Bool) (st : DelayState) : DelayState :=
  if dynamic && decide (base.1 < st.cur_min) then
    { cur_min := max base.1 (st.cur_min - 1/2),
      cur_max := max base.2 (st.cur_max - 1/2),
      consecutive_failures := 0 }
  else { st with consecutive_failures := 0 }

/-- `RequestDelayManager.on_failure`: bump the failure streak; when dynamic
delay is on, multiply both bounds by 1.5 (2.0 for a 429/503 status), each
clamped above by the 30-second ceiling. -/
def on_failure (_base : ℚ × ℚ) (dynamic : Bool) (status : Option ℕ) (st : DelayState) :
    DelayState :=
  let cf := st.consecutive_failures + 1
  if dynamic then
    let m : ℚ := if (match status with
      | some s => rateLimitCodes.contains s
      | none => false) then 2 else 3/2
    { cur_min := min (st.cur_min * m) 30,
      cur_max := min (st.cur_max * m) 30,
      consecutive_failures := cf }
  else { st with consecutive_failures := cf }

/-- C3, amended.  With dynamic delay on: every failure multiplies both bounds
by 1.5 — by 2.0 when the status is 429 or 503 — clamping each at the
30-second ceiling; a success shrinks both bounds by 0.5 (clamped below by
the base window, so they never go below it) only when the current minimum
still exceeds the base minimum, and otherwise leaves the window unchanged —
even if the current maximum still exceeds the base maximum. -/
theorem C3_delay_adjustment (base : ℚ × ℚ) (st : DelayState) (status : Option ℕ) :
    (on_failure base true status st).cur_min =
      min (st.cur_min * (if (match status with
        | some s => rateLimitCodes.contains s
        | none => false) then 2 else 3/2)) 30 ∧
    (on_failure base true status st).cur_max =
      min (st.cur_max * (if (match status with
        | some s => rateLimitCodes.contains s
        | none => false) then 2 else 3/2)) 30 ∧
    (on_failure base true status st).cur_min ≤ 30 ∧
    (on_failure base true status st).cur_max ≤ 30 ∧
    (on_failure base true status st).consecutive_failures = st.consecutive_failures + 1 ∧
    (on_success base true st) =
      (if base.1 < st.cur_min then
        { cur_min := max base.1 (st.cur_min - 1/2),
          cur_max := max base.2 (st.cur_max - 1/2),
          consecutive_failures := 0 }
       else { st with consecutive_failures := 0 }) ∧
    ((on_success base true st).cur_min = st.cur_min ∨
      base.1 ≤ (on_success base true st).cur_min) ∧
    ((on_success base true st).cur_max = st.cur_max ∨
      base.2 ≤ (on_success base true st).cur_max) := by
  refine ⟨rfl, rfl, min_le_right _ _, min_le_right _ _, rfl, ?_, ?_, ?_⟩
  · by_cases h : base.1 < st.cur_min
    · simp [on_success, h]
    · simp [on_success, h]
  · by_cases h : base.1 < st.cur_min
    · right
      simp [on_success, h, le_max_left]
    · left
      simp [on_success, h]
  · by_cases h : base.1 < st.cur_min
    · right
      simp [on_success, h, le_max_left]
    · left
      simp [on_success, h]

/-- C3 counterexample.  From the default base window (1, 3), one plain
failure yields (1.5, 4.5); the next success shrinks to (1, 4); a further
success then leaves the window at (1, 4) unchanged — although the claim
says every success shrinks both bounds by 0.5, which would give max 3.5
(still above the base maximum 3). -/
theorem C3_counterexample :
    on_failure (1, 3) true none ⟨1, 3, 0⟩ = ⟨3/2, 9/2, 1⟩ ∧
    on_success (1, 3) true ⟨3/2, 9/2, 1⟩ = ⟨1, 4, 0⟩ ∧
    on_success (1, 3) true ⟨1, 4, 0⟩ = ⟨1, 4, 0⟩ ∧
    ((4 : ℚ) - 1/2 = 7/2) ∧ ((3 : ℚ) ≤ 7/2) ∧ ((7/2 : ℚ) < 4) := by
  refine ⟨?_, ?_, ?_, by norm_num, by norm_num, by norm_num⟩
  · simp only [on_failure, rateLimitCodes]
    norm_num
  · simp only [on_success]
    norm_num
  · simp only [on_success]
    norm_num

/-! ### Fetch executor (`src/search_executor.py`) -/

/-- One element of the JSON array at index 1 of a suggestion response:
either a string or something else (discarded by the parser). -/
inductive JVal
  | s (v : String)
  | nonstr
deriving DecidableEq

/-- One element of the top-level JSON array of a suggestion response. -/
inductive JTop
  | arr (xs : List JVal)
  | notarr
deriving DecidableEq

/-- What one HTTP GET against the suggestion endpoint produces: a response
with a status and a JSON body (`none` = `response.json()` raises), or a
transport error / timeout. -/
inductive FetchResult
  | resp (status : ℕ) (json : Option (List JTop))
  | exn
deriving DecidableEq

/-- A deterministic suggestion endpoint keyed by (query, language). -/
def Endpoint : Type := String → String → FetchResult

/-- `GoogleSuggestAPI._get_suggestions_chrome`: on HTTP 200 with a JSON array
of length > 1 whose element 1 is an array, keep its string entries; on any
other status, malformed body, or exception, return `[]`. -/
def get_suggestions_chrome (e : Endpoint) (q lang : String) : List String :=
  match e q lang with
  | .exn => []
  | .resp status json =>
    if status = 200 then
      match json with
      | none => []
      | some data =>
        match data with
        | _ :: JTop.arr xs :: _ => xs.filterMap fun v => match v with
            | .s v => some v
            | .nonstr => none
        | _ => []
    else []

/-- The `GoogleSuggestAPI.stats` counters. -/
structure ApiStats where
  total_requests : ℕ
  successful_requests : ℕ
  failed_requests : ℕ
  total_suggestions : ℕ
deriving DecidableEq

/-- The API-client state threaded through a run: the statistics counters plus
the log of every (query, language) HTTP GET issued, oldest first. -/
structure ApiState where
  stats : ApiStats
  calls : List (String × String)
deriving DecidableEq

def initialApiState : ApiState := ⟨⟨0, 0, 0, 0⟩, []⟩

/-- `GoogleSuggestAPI.search_suggestions`: issue one GET, bump
`total_requests`, then count the query as successful exactly when the parsed
suggestion list is non-empty — an empty list is counted as a failed request
even on HTTP 200. -/
def search_suggestions (e : Endpoint) (q lang : String) (s : ApiState) :
    List String × ApiState :=
  let sugg := get_suggestions_chrome e q lang
  let st := { s.stats with total_requests := s.stats.total_requests + 1 }
  let st2 :=
    if sugg.isEmpty then { st with failed_requests := st.failed_requests + 1 }
    else { st with successful_requests := st.successful_requests + 1,
                   total_suggestions := st.total_suggestions + sugg.length }
  (sugg, ⟨st2, s.calls ++ [(q, lang)]⟩)

/-- `SearchExecutor.execute_single_query`: query each configured language in
order; keep a `{language: suggestions}` entry only when the suggestion list
is non-empty. -/
def execute_single_query (e : Endpoint) (q : String) :
    List String → ApiState → List (String × List String) × ApiState
  | [], s => ([], s)
  | lang :: rest, s =>
    let r := search_suggestions e q lang s
    let t := execute_single_query e q rest r.2
    ((if r.1.isEmpty then t.1 else (lang, r.1) :: t.1), t.2)

/-- The per-language result map of one query, as a pure function of the
endpoint (it does not depend on the statistics threaded through). -/
def singleAssoc (e : Endpoint) (q : String) (langs : List String) :
    List (String × List String) :=
  langs.filterMap fun lang =>
    let g := get_suggestions_chrome e q lang
    if g.isEmpty then none else some (lang, g)

/-- The deduplicated merge of all languages' suggestions for one query. -/
def mergedSuggestions (e : Endpoint) (langs : List String) (q : String) : List String :=
  pyDedup (langs.flatMap fun lang => get_suggestions_chrome e q lang)

/-- The outcome of `SearchExecutor.execute_query_batch`: the result map (in
insertion order), the batch's completed and failed marks, and the API state. -/
structure BatchOutcome where
  results : List (String × List String)
  completed : List String
  failed : List String
  state : ApiState
deriving DecidableEq

/-- `SearchExecutor.execute_query_batch` (sequential mode): one query at a
time; a query with a non-empty merged suggestion list is recorded in the
result map and marked completed, any other query is marked failed; either
way the loop continues with the next query. -/
def execute_query_batch (e : Endpoint) (langs : List String) :
    List String → ApiState → BatchOutcome
  | [], s => ⟨[], [], [], s⟩
  | q :: rest, s =>
    let r := execute_single_query e q langs s
    let merged := pyDedup (r.1.flatMap Prod.snd)
    let t := execute_query_batch e langs rest r.2
    if r.1.isEmpty then ⟨t.results, t.completed, q :: t.failed, t.state⟩
    else ⟨(q, merged) :: t.results, q :: t.completed, t.failed, t.state⟩

/-- `SearchExecutor.execute_queries_parallel` (worker-pool mode).  Each
worker runs `execute_single_query` and merges `list(set(...))` of the
per-language lists; Python's set enumeration order is unspecified, so the
value lists here are meaningful only up to membership, and the map's
insertion order (completion order in the source) is modelled as query order. -/
def execute_queries_parallel (e : Endpoint) (langs : List String) :
    List String → ApiState → List (String × List String) × ApiState
  | [], s => ([], s)
  | q :: rest, s =>
    let r := execute_single_query e q langs s
    let merged := pyDedup (r.1.flatMap Prod.snd)
    let t := execute_queries_parallel e langs rest r.2
    ((if r.1.isEmpty then t.1 else (q, merged) :: t.1), t.2)

/-- The per-language loop of `execute_single_async` in
`SearchExecutor.execute_queries_async`.  On a 200 response the code calls
`self.google_api._parse_suggestions(data)`, but `GoogleSuggestAPI` defines no
method `_parse_suggestions`, so the attribute lookup raises `AttributeError`
(modelled as `.error`); the surrounding `except` then returns `(query, [])`.
A transport exception hits the same handler; a non-200 response appends
nothing and moves to the next language. -/
def async_fetch_langs (e : Endpoint) (q : String) : List String → Except Unit (List String)
  | [] => .ok []
  | lang :: rest =>
    match e q lang with
    | .exn => .error ()
    | .resp status _ => if status = 200 then .error () else async_fetch_langs e q rest

/-- One async task: the `(query, unique_suggestions)` pair it returns. -/
def execute_single_async (e : Endpoint) (langs : List String) (q : String) :
    String × List String :=
  match async_fetch_langs e q langs with
  | .ok sugg => (q, pyDedup sugg)
  | .error _ => (q, [])

/-- `SearchExecutor.execute_queries_async`: gather all tasks in task order
and keep only the queries with non-empty suggestion lists. -/
def execute_queries_async (e : Endpoint) (langs : List String)
    (queries : List String) : List (String × List String) :=
  queries.filterMap fun q =>
    let r := execute_single_async e langs q
    if r.2.isEmpty then none else some (q, r.2)

theorem execute_single_query_fst (e : Endpoint) (q : String) (langs : List String)
    (s : ApiState) : (execute_single_query e q langs s).1 = singleAssoc e q langs := by
  induction langs generalizing s with
  | nil => rfl
  | cons lang rest ih =>
    simp only [execute_single_query, search_suggestions, singleAssoc, List.filterMap_cons]
    by_cases hg : (get_suggestions_chrome e q lang).isEmpty
    · simp only [hg, if_true, if_pos hg, ih]
      rfl
    · simp only [hg, if_false, if_neg hg, ih]
      rfl

theorem execute_single_query_calls (e : Endpoint) (q : String) (langs : List String)
    (s : ApiState) : (execute_single_query e q langs s).2.calls =
      s.calls ++ langs.map fun lang => (q, lang) := by
  induction langs generalizing s with
  | nil => simp [execute_single_query]
  | cons lang rest ih =>
    simp only [execute_single_query, ih, search_suggestions, List.map_cons]
    simp

theorem singleAssoc_flatMap (e : Endpoint) (q : String) (langs : List String) :
    (singleAssoc e q langs).flatMap Prod.snd =
      langs.flatMap fun lang => get_suggestions_chrome e q lang := by
  induction langs with
  | nil => rfl
  | cons lang rest ih =>
    simp only [singleAssoc, List.filterMap_cons, List.flatMap_cons] at ih ⊢
    by_cases hg : (get_suggestions_chrome e q lang).isEmpty
    · rw [if_pos hg, ih, List.isEmpty_iff.mp hg]
      rfl
    · rw [if_neg hg, List.flatMap_cons, ih]

theorem pyDedup_eq_nil_iff {l : List String} : pyDedup l = [] ↔ l = [] := by
  constructor
  · intro h
    rcases l with _ | ⟨a, rest⟩
    · rfl
    · exfalso
      have : a ∈ pyDedup (a :: rest) := mem_pyDedup.mpr (List.mem_cons_self a rest)
      rw [h] at this
      cases this
  · rintro rfl
    rfl

theorem singleAssoc_isEmpty_iff (e : Endpoint) (q : String) (langs : List String) :
    (singleAssoc e q langs).isEmpty = (mergedSuggestions e langs q).isEmpty := by
  rcases hA : singleAssoc e q langs with _ | ⟨⟨lang, g⟩, rest⟩
  · have h1 : (singleAssoc e q langs).flatMap Prod.snd = [] := by rw [hA]; rfl
    rw [singleAssoc_flatMap] at h1
    simp [mergedSuggestions, h1, pyDedup, pyDedupGo]
  · have hg : ¬ g.isEmpty := by
      have : (lang, g) ∈ singleAssoc e q langs := by rw [hA]; exact List.mem_cons_self _ _
      simp only [singleAssoc, List.mem_filterMap] at this
      rcases this with ⟨lang2, -, hEq⟩
      by_cases hge : (get_suggestions_chrome e q lang2).isEmpty
      · rw [if_pos hge] at hEq; cases hEq
      · rw [if_neg hge] at hEq
        cases hEq
        exact hge
    rcases hgl : g with _ | ⟨x, gtail⟩
    · rw [hgl] at hg; simp at hg
    · have hx : x ∈ (singleAssoc e q langs).flatMap Prod.snd := by
        rw [hA]
        simp [hgl]
      rw [singleAssoc_flatMap] at hx
      have hx2 : x ∈ mergedSuggestions e langs q := mem_pyDedup.mpr hx
      rcases hM : mergedSuggestions e langs q with _ | _
      · rw [hM] at hx2; cases hx2
      · rfl

theorem batch_spec (e : Endpoint) (langs : List String) (queries : List String)
    (s : ApiState) :
    (execute_query_batch e langs queries s).state.calls =
      s.calls ++ queries.flatMap (fun q => langs.map fun lang => (q, lang)) ∧
    (execute_query_batch e langs queries s).results.map Prod.fst =
      queries.filter (fun q => !(mergedSuggestions e langs q).isEmpty) ∧
    (execute_query_batch e langs queries s).failed =
      queries.filter (fun q => (mergedSuggestions e langs q).isEmpty) := by
  induction queries generalizing s with
  | nil => exact ⟨by simp [execute_query_batch], rfl, rfl⟩
  | cons q rest ih =>
    obtain ⟨ih1, ih2, ih3⟩ := ih (execute_single_query e q langs s).2
    have hcalls := execute_single_query_calls e q langs s
    by_cases hq : (execute_single_query e q langs s).1.isEmpty = true
    · have hm : (mergedSuggestions e langs q).isEmpty = true := by
        rw [← singleAssoc_isEmpty_iff, ← execute_single_query_fst e q langs s]
        exact hq
      refine ⟨?_, ?_, ?_⟩
      · simp only [execute_query_batch, if_pos hq, ih1, hcalls, List.flatMap_cons,
          List.append_assoc]
      · simp only [execute_query_batch, if_pos hq, ih2, List.filter_cons, hm,
          Bool.not_true, if_neg Bool.false_ne_true]
      · simp only [execute_query_batch, if_pos hq, ih3, List.filter_cons, hm]
        simp
    · have hm : ¬ (mergedSuggestions e langs q).isEmpty = true := by
        rw [← singleAssoc_isEmpty_iff, ← execute_single_query_fst e q langs s]
        exact hq
      refine ⟨?_, ?_, ?_⟩
      · simp only [execute_query_batch, if_neg hq, ih1, hcalls, List.flatMap_cons,
          List.append_assoc]
      · simp only [execute_query_batch, if_neg hq, List.map_cons, ih2, List.filter_cons]
        rw [Bool.not_eq_true] at hm
        simp [hm]
      · simp only [execute_query_batch, if_neg hq, ih3, List.filter_cons]
        rw [Bool.not_eq_true] at hm
        simp [hm]

/-- C8.  In sequential batch mode, for any deterministic endpoint behaviour
(including non-200 statuses, timeouts, transport errors and malformed JSON,
all of which make the parsed suggestion list empty): every query in the batch
is fetched exactly once per configured language, in order — so a failure
never aborts the batch and no query is retried; the result map holds exactly
the queries whose merged suggestion list is non-empty; the failed marks hold
exactly the others; and no failed query appears in the result map. -/
theorem C8_failure_isolation (e : Endpoint) (langs queries : List String) (s : ApiState) :
    (execute_query_batch e langs queries s).state.calls =
      s.calls ++ queries.flatMap (fun q => langs.map fun lang => (q, lang)) ∧
    (execute_query_batch e langs queries s).results.map Prod.fst =
      queries.filter (fun q => !(mergedSuggestions e langs q).isEmpty) ∧
    (execute_query_batch e langs queries s).failed =
      queries.filter (fun q => (mergedSuggestions e langs q).isEmpty) ∧
    ((execute_query_batch e langs queries s).failed.all fun q =>
      !(((execute_query_batch e langs queries s).results.map Prod.fst).contains q)) = true := by
  obtain ⟨h1, h2, h3⟩ := batch_spec e langs queries s
  refine ⟨h1, h2, h3, ?_⟩
  apply List.all_eq_true.mpr
  intro q hq
  rw [h3] at hq
  have hpred := List.of_mem_filter hq
  have hnot : q ∉ queries.filter (fun q => !(mergedSuggestions e langs q).isEmpty) := by
    intro hmem
    have h5 := List.of_mem_filter hmem
    rw [hpred] at h5
    simp at h5
  rw [h2]
  simp
  exact Or.inr (List.isEmpty_iff.mp hpred)

/-- An endpoint that always answers HTTP 200 with a well-formed body whose
suggestion list is empty. -/
def endpointEmpty200 : Endpoint := fun _ _ => .resp 200 (some [JTop.notarr, JTop.arr []])

/-- An endpoint that always fails at the transport level. -/
def endpointError : Endpoint := fun _ _ => .exn

theorem search_suggestions_congr (e1 e2 : Endpoint)
    (h : ∀ q lang, get_suggestions_chrome e1 q lang = get_suggestions_chrome e2 q lang)
    (q lang : String) (s : ApiState) :
    search_suggestions e1 q lang s = search_suggestions e2 q lang s := by
  simp only [search_suggestions, h q lang]

theorem execute_single_query_congr (e1 e2 : Endpoint)
    (h : ∀ q lang, get_suggestions_chrome e1 q lang = get_suggestions_chrome e2 q lang)
    (q : String) (langs : List String) (s : ApiState) :
    execute_single_query e1 q langs s = execute_single_query e2 q langs s := by
  induction langs generalizing s with
  | nil => rfl
  | cons lang rest ih =>
    simp only [execute_single_query, search_suggestions_congr e1 e2 h, ih]

theorem execute_query_batch_congr (e1 e2 : Endpoint)
    (h : ∀ q lang, get_suggestions_chrome e1 q lang = get_suggestions_chrome e2 q lang)
    (langs queries : List String) (s : ApiState) :
    execute_query_batch e1 langs queries s = execute_query_batch e2 langs queries s := by
  induction queries generalizing s with
  | nil => rfl
  | cons q rest ih =>
    simp only [execute_query_batch, execute_single_query_congr e1 e2 h, ih]

theorem batch_results_all_nonempty (e : Endpoint) (langs queries : List String)
    (s : ApiState) :
    ((execute_query_batch e langs queries s).results.all fun p => !(p.2.isEmpty)) = true := by
  induction queries generalizing s with
  | nil => rfl
  | cons q rest ih =>
    by_cases hq : (execute_single_query e q langs s).1.isEmpty = true
    · simp only [execute_query_batch, if_pos hq]
      exact ih (execute_single_query e q langs s).2
    · have hm : ¬ (mergedSuggestions e langs q).isEmpty = true := by
        rw [← singleAssoc_isEmpty_iff, ← execute_single_query_fst e q langs s]
        exact hq
      have hmerged : pyDedup ((execute_single_query e q langs s).1.flatMap Prod.snd)
          = mergedSuggestions e langs q := by
        rw [execute_single_query_fst, singleAssoc_flatMap]
        rfl
      simp only [execute_query_batch, if_neg hq, List.all_cons, hmerged]
      rw [Bool.not_eq_true] at hm
      simp only [hm, Bool.not_false, Bool.true_and]
      exact ih (execute_single_query e q langs s).2

theorem single_stats_all_empty (e : Endpoint)
    (he : ∀ q lang, get_suggestions_chrome e q lang = []) (q : String)
    (langs : List String) (s : ApiState) :
    (execute_single_query e q langs s).2.stats.failed_requests =
        s.stats.failed_requests + langs.length ∧
      (execute_single_query e q langs s).2.stats.successful_requests =
        s.stats.successful_requests := by
  induction langs generalizing s with
  | nil => exact ⟨by simp [execute_single_query], rfl⟩
  | cons lang rest ih =>
    simp only [execute_single_query, search_suggestions, he q lang, List.isEmpty_nil,
      if_true, List.length_cons]
    obtain ⟨ih1, ih2⟩ := ih _
    constructor
    · rw [ih1]
      simp
      omega
    · rw [ih2]

theorem batch_stats_all_empty (e : Endpoint)
    (he : ∀ q lang, get_suggestions_chrome e q lang = []) (langs queries : List String)
    (s : ApiState) :
    (execute_query_batch e langs queries s).state.stats.failed_requests =
        s.stats.failed_requests + queries.length * langs.length ∧
      (execute_query_batch e langs queries s).state.stats.successful_requests =
        s.stats.successful_requests := by
  induction queries generalizing s with
  | nil => exact ⟨by simp [execute_query_batch], rfl⟩
  | cons q rest ih =>
    obtain ⟨h1, h2⟩ := single_stats_all_empty e he q langs s
    obtain ⟨ih1, ih2⟩ := ih (execute_single_query e q langs s).2
    by_cases hq : (execute_single_query e q langs s).1.isEmpty = true
    · simp only [execute_query_batch, if_pos hq, ih1, ih2, h1, h2, List.length_cons]
      constructor
      · ring
      · trivial
    · simp only [execute_query_batch, if_neg hq, ih1, ih2, h1, h2, List.length_cons]
      constructor
      · ring
      · trivial

theorem flatMap_nil_fun (langs : List String) :
    (langs.flatMap fun _ => ([] : List String)) = [] := by
  induction langs with
  | nil => rfl
  | cons lang rest ih => simp only [List.flatMap_cons, List.nil_append, ih]

theorem mergedSuggestions_empty200 (langs : List String) (q : String) :
    mergedSuggestions endpointEmpty200 langs q = [] := by
  have h : (langs.flatMap fun lang => get_suggestions_chrome endpointEmpty200 q lang) = [] :=
    flatMap_nil_fun langs
  rw [mergedSuggestions, h]
  rfl

/-- C10.  A 200-status query whose parsed suggestion list is empty is treated
exactly like a fetch failure: every entry of the sequential batch's result
map has a non-empty suggestion list; and a batch against an endpoint that
always answers 200-with-empty-list is outcome-for-outcome identical (results,
marks, statistics, issued calls) to a batch against an endpoint that always
fails at transport level — all queries marked failed, the empty result map,
and one failed-request count per (query, language) pair. -/
theorem C10_empty_success_is_failure (e : Endpoint) (langs queries : List String)
    (s : ApiState) :
    ((execute_query_batch e langs queries s).results.all fun p => !(p.2.isEmpty)) = true ∧
    execute_query_batch endpointEmpty200 langs queries s =
      execute_query_batch endpointError langs queries s ∧
    (execute_query_batch endpointEmpty200 langs queries s).results = [] ∧
    (execute_query_batch endpointEmpty200 langs queries s).failed = queries ∧
    (execute_query_batch endpointEmpty200 langs queries s).state.stats.failed_requests =
      s.stats.failed_requests + queries.length * langs.length ∧
    (execute_query_batch endpointEmpty200 langs queries s).state.stats.successful_requests =
      s.stats.successful_requests := by
  obtain ⟨-, h2, h3⟩ := batch_spec endpointEmpty200 langs queries s
  refine ⟨batch_results_all_nonempty e langs queries s, ?_, ?_, ?_, ?_, ?_⟩
  · exact execute_query_batch_congr endpointEmpty200 endpointError (fun _ _ => rfl) langs queries s
  · have hmap : (execute_query_batch endpointEmpty200 langs queries s).results.map Prod.fst
        = [] := by
      rw [h2]
      apply List.filter_eq_nil_iff.mpr
      intro q _
      simp [mergedSuggestions_empty200]
    exact List.map_eq_nil_iff.mp hmap
  · rw [h3]
    apply List.filter_eq_self.mpr
    intro q _
    simp [mergedSuggestions_empty200]
  · exact (batch_stats_all_empty endpointEmpty200 (fun _ _ => rfl) langs queries s).1
  · exact (batch_stats_all_empty endpointEmpty200 (fun _ _ => rfl) langs queries s).2

/-- A deterministic endpoint answering every (query, language) with HTTP 200
and the suggestion list `["s"]`. -/
def mockEndpoint : Endpoint := fun _ _ => .resp 200 (some [JTop.notarr, JTop.arr [JVal.s "s"]])

theorem execute_single_async_snd (e : Endpoint) (langs : List String) (q : String) :
    (execute_single_async e langs q).2 = [] := by
  induction langs with
  | nil => rfl
  | cons lang rest ih =>
    cases he : e q lang with
    | exn => simp [execute_single_async, async_fetch_langs, he]
    | resp status json =>
      by_cases hs : status = 200
      · simp [execute_single_async, async_fetch_langs, he, hs]
      · have hred : async_fetch_langs e q (lang :: rest) = async_fetch_langs e q rest := by
          simp [async_fetch_langs, he, hs]
        simp only [execute_single_async, hred]
        exact ih

theorem async_results_empty (e : Endpoint) (langs queries : List String) :
    execute_queries_async e langs queries = [] := by
  induction queries with
  | nil => rfl
  | cons q rest ih =>
    simp only [execute_queries_async, List.filterMap_cons] at ih ⊢
    rw [execute_single_async_snd e langs q]
    simpa using ih

/-- C4.  The three execution modes do NOT yield identical per-query
suggestion content: the async mode's per-task body calls
`self.google_api._parse_suggestions(data)`, a method `GoogleSuggestAPI` never
defines, so on every 200 response the task raises `AttributeError`, its
handler returns `(query, [])`, and the async result map is empty for every
endpoint — while sequential and worker-pool modes return the real
suggestions (here `{"q": ["s"]}` against a deterministic mock endpoint). -/
theorem C4_async_mode_broken :
    (∀ (e : Endpoint) (langs queries : List String),
      execute_queries_async e langs queries = []) ∧
    (execute_query_batch mockEndpoint ["en"] ["q"] initialApiState).results
      = [("q", ["s"])] ∧
    (execute_queries_parallel mockEndpoint ["en"] ["q"] initialApiState).1
      = [("q", ["s"])] ∧
    execute_queries_async mockEndpoint ["en"] ["q"] = [] := by
  exact ⟨fun e langs queries => async_results_empty e langs queries,
    by decide, by decide, rfl⟩

/-! ### Snapshots and diffing (`src/data_processor.py`, `src/compare_analyzer.py`) -/

/-- The `KeywordData` dataclass. -/
structure KeywordData where
  main_keyword : String
  execution_date : String
  execution_time : String
  total_queries : ℕ
  successful_queries : ℕ
  failed_queries : ℕ
  execution_duration : String
  total_keywords_found : ℕ
  unique_keywords : ℕ
  average_suggestions_per_query : ℚ
  query_results : List (String × List String)
deriving DecidableEq

/-- `DataProcessor.extract_all_keywords`: the set of stripped suggestion
strings across all queries, keeping only suggestions that are non-empty after
stripping.  (A Python `set`; represented as a duplicate-free list.) -/
def extract_all_keywords (d : KeywordData) : List String :=
  pyDedup (((d.query_results.flatMap Prod.snd).map pyStrip).filter fun s => !(s == ""))

/-- The `ComparisonResult` dataclass. -/
structure ComparisonResult where
  main_keyword : String
  current_date : String
  previous_date : String
  new_keywords : List String
  disappeared_keywords : List String
  stable_keywords : List String
  total_current : ℕ
  total_previous : ℕ
  new_count : ℕ
  disappeared_count : ℕ
  stable_count : ℕ
  change_rate : ℚ
deriving DecidableEq

/-- Python's `round(x, 2)` over the rationals. -/
def round2 (x : ℚ) : ℚ := (round (x * 100) : ℤ) / 100

/-- `CompareAnalyzer.compare_keyword_data`: set differences and intersection
of the two snapshots' keyword sets, each sorted ascending, plus the counters
and the change rate `(|new| − |disappeared|) / |previous| × 100` rounded to
two decimals (0 when the previous set is empty). -/
def compare_keyword_data (cur prev : KeywordData) : ComparisonResult :=
  let ck := extract_all_keywords cur
  let pk := extract_all_keywords prev
  let nw := List.insertionSort strLe (ck.filter fun x => !(pk.contains x))
  let dis := List.insertionSort strLe (pk.filter fun x => !(ck.contains x))
  let stable := List.insertionSort strLe (ck.filter fun x => pk.contains x)
  let tp := pk.length
  let rate : ℚ :=
    if 0 < tp then round2 ((((nw.length : ℚ) - (dis.length : ℚ)) / (tp : ℚ)) * 100) else 0
  ⟨cur.main_keyword, cur.execution_date, prev.execution_date, nw, dis, stable,
    ck.length, tp, nw.length, dis.length, stable.length, rate⟩

theorem filter_not_contains_length {a b : List String} (ha : a.Nodup) :
    (a.filter fun x => !(b.contains x)).length = (a.toFinset \ b.toFinset).card := by
  have hnod : (a.filter fun x => !(b.contains x)).Nodup := ha.filter _
  have hfs : (a.filter fun x => !(b.contains x)).toFinset = a.toFinset \ b.toFinset := by
    ext x
    simp only [List.mem_toFinset, List.mem_filter, Finset.mem_sdiff]
    constructor
    · rintro ⟨hxa, hxb⟩
      refine ⟨hxa, fun hxb2 => ?_⟩
      rw [Bool.not_eq_true'] at hxb
      have hnb : x ∉ b := by simpa using hxb
      exact hnb hxb2
    · rintro ⟨hxa, hxb⟩
      refine ⟨hxa, ?_⟩
      simp only [Bool.not_eq_true']
      by_contra hc
      rw [Bool.not_eq_false] at hc
      exact hxb (List.mem_of_elem_eq_true hc)
  rw [← hfs, List.toFinset_card_of_nodup hnod]

theorem nodup_length_eq_toFinset_card {a : List String} (ha : a.Nodup) :
    a.length = a.toFinset.card := (List.toFinset_card_of_nodup ha).symm

/-- The spec example's previous-day snapshot, with suggestion set {a, b, c}. -/
def examplePrevious : KeywordData :=
  ⟨"seed", "2025-01-01", "2025-01-01 00:00:00", 1, 1, 0, "00:00:00", 3, 3, 3,
    [("q", ["a", "b", "c"])]⟩

/-- The spec example's current snapshot, with suggestion set {b, c, d}. -/
def exampleCurrent : KeywordData :=
  ⟨"seed", "2025-01-02", "2025-01-02 00:00:00", 1, 1, 0, "00:00:00", 3, 3, 3,
    [("q", ["b", "c", "d"])]⟩

/-- C5.  The computed change rate is
`(|new| − |disappeared|) / |previous| × 100`, rounded to two decimals, and `0`
when the previous keyword set is empty; on the example snapshots
(previous {a,b,c}, current {b,c,d}) the diff is new `["d"]`, disappeared
`["a"]`, stable `["b","c"]`, with change rate 0. -/
theorem C5_change_rate (cur prev : KeywordData) :
    ((compare_keyword_data cur prev).change_rate =
      (if (extract_all_keywords prev).toFinset = ∅ then 0
       else round2
        (((((extract_all_keywords cur).toFinset \ (extract_all_keywords prev).toFinset).card : ℚ) -
          (((extract_all_keywords prev).toFinset \ (extract_all_keywords cur).toFinset).card : ℚ)) /
          (((extract_all_keywords prev).toFinset.card : ℚ)) * 100))) ∧
    (compare_keyword_data exampleCurrent examplePrevious).new_keywords = ["d"] ∧
    (compare_keyword_data exampleCurrent examplePrevious).disappeared_keywords = ["a"] ∧
    (compare_keyword_data exampleCurrent examplePrevious).stable_keywords = ["b", "c"] ∧
    (compare_keyword_data exampleCurrent examplePrevious).new_count = 1 ∧
    (compare_keyword_data exampleCurrent examplePrevious).disappeared_count = 1 ∧
    (compare_keyword_data exampleCurrent examplePrevious).total_previous = 3 ∧
    (compare_keyword_data exampleCurrent examplePrevious).change_rate = 0 := by
  refine ⟨?_, by decide, by decide, by decide, by decide, by decide, by decide, ?_⟩
  · have hck : (extract_all_keywords cur).Nodup := nodup_pyDedup _
    have hpk : (extract_all_keywords prev).Nodup := nodup_pyDedup _
    simp only [compare_keyword_data, List.length_insertionSort]
    rw [filter_not_contains_length hck, filter_not_contains_length hpk,
      nodup_length_eq_toFinset_card hpk]
    by_cases hc : (extract_all_keywords prev).toFinset = ∅
    · rw [if_pos hc, if_neg (by rw [hc]; simp)]
    · rw [if_neg hc, if_pos (Finset.card_pos.mpr (Finset.nonempty_of_ne_empty hc))]
  · simp only [compare_keyword_data]
    rw [if_pos (by decide)]
    have e1 : (List.insertionSort strLe
        ((extract_all_keywords exampleCurrent).filter fun x =>
          !((extract_all_keywords examplePrevious).contains x))).length = 1 := by decide
    have e2 : (List.insertionSort strLe
        ((extract_all_keywords examplePrevious).filter fun x =>
          !((extract_all_keywords exampleCurrent).contains x))).length = 1 := by decide
    have e3 : (extract_all_keywords examplePrevious).length = 3 := by decide
    rw [e1, e2, e3]
    norm_num [round2]

/-- C6.  Diffing any snapshot against itself yields empty new and disappeared
lists, a stable list equal to the sorted extracted suggestion set, and change
rate 0. -/
theorem C6_self_diff (S : KeywordData) :
    (compare_keyword_data S S).new_keywords = [] ∧
    (compare_keyword_data S S).disappeared_keywords = [] ∧
    (compare_keyword_data S S).stable_keywords =
      List.insertionSort strLe (extract_all_keywords S) ∧
    (compare_keyword_data S S).new_count = 0 ∧
    (compare_keyword_data S S).disappeared_count = 0 ∧
    (compare_keyword_data S S).change_rate = 0 := by
  have hfilter : ((extract_all_keywords S).filter fun x =>
      !((extract_all_keywords S).contains x)) = [] := by
    apply List.filter_eq_nil_iff.mpr
    intro x hx
    simp [hx]
  have hstable : ((extract_all_keywords S).filter fun x =>
      (extract_all_keywords S).contains x) = extract_all_keywords S := by
    apply List.filter_eq_self.mpr
    intro x hx
    exact List.elem_eq_true_of_mem hx
  simp only [compare_keyword_data, hfilter, hstable]
  refine ⟨by trivial, by trivial, by trivial, by trivial, by trivial, ?_⟩
  by_cases hc : 0 < (extract_all_keywords S).length
  · rw [if_pos hc]
    norm_num [round2]
  · rw [if_neg hc]

/-- The character class of `re.sub(r'[<>:"/\\|?*\s]', '_', ...)` in
`DataProcessor._sanitize_filename` (whitespace as in `isPySpace`). -/
def unsafeFilenameChar (c : Char) : Bool :=
  c = '<' || c = '>' || c = ':' || c = Char.ofNat 34 || c = '/' || c = '\\' ||
    c = '|' || c = '?' || c = '*' || isPySpace c

/-- `re.sub(r'_+', '_', ...)`: collapse every run of underscores to one
(processing from the right: drop an underscore whose collapsed tail already
starts with one). -/
def collapseUnderscores : List Char → List Char
  | [] => []
  | c :: rest =>
    let r := collapseUnderscores rest
    if c = '_' && (r.headD ' ' == '_') then r else c :: r

/-- The leading half of `.strip('_')`. -/
def stripLeadU (l : List Char) : List Char := l.dropWhile fun c => c = '_'

/-- The trailing half of `.strip('_')`: drop the maximal trailing run of
underscores. -/
def stripTrailU : List Char → List Char
  | [] => []
  | c :: rest =>
    match stripTrailU rest with
    | [] => if c = '_' then [] else [c]
    | r => c :: r

/-- `DataProcessor._sanitize_filename` before the final length cap. -/
def sanitizePre (s : String) : List Char :=
  stripTrailU (stripLeadU (collapseUnderscores
    (s.toList.map fun c => if unsafeFilenameChar c then '_' else c)))

/-- `DataProcessor._sanitize_filename`: replace unsafe characters by
underscores, collapse underscore runs, strip outer underscores, then truncate
to 50 characters. -/
def sanitize_filename (s : String) : String := String.mk ((sanitizePre s).take 50)

/-- The snapshot filename built in `DataProcessor.save_keyword_data`:
`f"{keyword_data.execution_date}_{safe_keyword}.json"`. -/
def save_filename (kd : KeywordData) : String :=
  kd.execution_date ++ "_" ++ sanitize_filename kd.main_keyword ++ ".json"

theorem collapseUnderscores_sublist (l : List Char) :
    (collapseUnderscores l).Sublist l := by
  induction l with
  | nil => exact List.Sublist.refl []
  | cons c rest ih =>
    simp only [collapseUnderscores]
    by_cases hcond : (c = '_' && ((collapseUnderscores rest).headD ' ' == '_')) = true
    · rw [if_pos hcond]
      exact List.Sublist.cons c ih
    · rw [if_neg hcond]
      exact List.Sublist.cons₂ c ih

theorem stripTrailU_eq_take (l : List Char) : ∃ n, stripTrailU l = l.take n := by
  induction l with
  | nil => exact ⟨0, rfl⟩
  | cons c rest ih =>
    obtain ⟨n, hn⟩ := ih
    rcases hr : stripTrailU rest with _ | ⟨d, rtail⟩
    · by_cases hc : c = '_'
      · exact ⟨0, by simp [stripTrailU, hr, hc]⟩
      · exact ⟨1, by simp [stripTrailU, hr, hc]⟩
    · refine ⟨n + 1, ?_⟩
      simp only [stripTrailU, hr, List.take_succ_cons]
      rw [← hr, hn]

/-- Adjacent characters are never both underscores. -/
def noAdjU : Char → Char → Prop := fun a b => ¬(a = '_' ∧ b = '_')

theorem chain'_collapseUnderscores (l : List Char) :
    List.Chain' noAdjU (collapseUnderscores l) := by
  induction l with
  | nil => exact List.chain'_nil
  | cons c rest ih =>
    simp only [collapseUnderscores]
    by_cases hcond : (c = '_' && ((collapseUnderscores rest).headD ' ' == '_')) = true
    · rw [if_pos hcond]
      exact ih
    · rw [if_neg hcond]
      rw [List.chain'_cons']
      refine ⟨?_, ih⟩
      intro b hb
      rintro ⟨hc, hbu⟩
      apply hcond
      have hhead : (collapseUnderscores rest).head? = some '_' := by
        cases hr : collapseUnderscores rest with
        | nil => rw [hr] at hb; cases hb
        | cons d tl =>
          rw [hr] at hb
          simp only [List.head?_cons, Option.mem_some_iff] at hb
          rw [List.head?_cons, hb, hbu]
      simp [hc, hhead]

theorem dropWhile_eq_drop {α : Type} (p : α → Bool) (l : List α) :
    ∃ n, l.dropWhile p = l.drop n := by
  induction l with
  | nil => exact ⟨0, rfl⟩
  | cons a rest ih =>
    by_cases ha : p a = true
    · obtain ⟨n, hn⟩ := ih
      exact ⟨n + 1, by simpa [List.dropWhile_cons, ha] using hn⟩
    · exact ⟨0, by simp [List.dropWhile_cons, ha]⟩

theorem take1_beq_dropWhile (l : List Char) :
    (((l.dropWhile fun c => c = '_').take 1).all fun c => !(c == '_')) = true := by
  induction l with
  | nil => rfl
  | cons a rest ih =>
    by_cases ha : a = '_'
    · simpa [List.dropWhile_cons, ha] using ih
    · simp [List.dropWhile_cons, ha]

theorem take1_all_take (q : Char → Bool) (l : List Char) (n : ℕ)
    (h : ((l.take 1).all q) = true) : (((l.take n).take 1).all q) = true := by
  cases n with
  | zero => simp
  | succ m =>
    have hmin : min 1 (m + 1) = 1 := by omega
    rw [List.take_take, hmin]
    exact h

theorem stripTrailU_last (l : List Char) :
    (((stripTrailU l).reverse.take 1).all fun c => !(c == '_')) = true := by
  induction l with
  | nil => rfl
  | cons c rest ih =>
    simp only [stripTrailU]
    cases hr : stripTrailU rest with
    | nil =>
      by_cases hc : c = '_'
      · simp [hc]
      · simp [hc]
    | cons d tl =>
      rw [hr] at ih
      rw [List.reverse_cons, List.take_append_eq_append_take]
      have hlen : 1 - (d :: tl).reverse.length = 0 := by simp
      rw [hlen]
      simpa using ih

theorem sanitizePre_sublist (s : String) :
    (sanitizePre s).Sublist (s.toList.map fun c => if unsafeFilenameChar c then '_' else c) := by
  obtain ⟨n, hn⟩ := stripTrailU_eq_take
    (stripLeadU (collapseUnderscores (s.toList.map fun c => if unsafeFilenameChar c then '_' else c)))
  rw [sanitizePre, hn]
  exact ((List.take_sublist _ _).trans (List.dropWhile_sublist _)).trans
    (collapseUnderscores_sublist _)


/-- C9, amended.  For every seed, the sanitized filename component contains
no whitespace and none of the unsafe characters, has no leading underscore
and no two consecutive underscores, and has length at most 50; before the
final 50-character truncation it also has no trailing underscore (the
truncation itself can expose one, since the strip runs before the cap); and
the snapshot file is named `{execution-date}_{sanitized-seed}.json`. -/
theorem C9_sanitize_filename (s : String) (kd : KeywordData) :
    ((sanitize_filename s).toList.all fun c => !(unsafeFilenameChar c)) = true ∧
    (((sanitize_filename s).toList.take 1).all fun c => !(c == '_')) = true ∧
    List.Chain' noAdjU (sanitize_filename s).toList ∧
    (sanitize_filename s).length ≤ 50 ∧
    (((sanitizePre s).reverse.take 1).all fun c => !(c == '_')) = true ∧
    save_filename kd = kd.execution_date ++ "_" ++ sanitize_filename kd.main_keyword
      ++ ".json" := by
  refine ⟨?_, ?_, ?_, ?_, stripTrailU_last _, rfl⟩
  · apply List.all_eq_true.mpr
    intro c hc
    have hc2 : c ∈ sanitizePre s := (List.take_sublist _ _).mem hc
    have hc3 := (sanitizePre_sublist s).mem hc2
    rcases List.mem_map.mp hc3 with ⟨a, -, rfl⟩
    by_cases h : unsafeFilenameChar a = true
    · simp only [h, if_true]
      decide
    · have hfa : unsafeFilenameChar a = false := by rwa [Bool.not_eq_true] at h
      simp [hfa]
  · show ((((sanitizePre s).take 50).take 1).all fun c => !(c == '_')) = true
    apply take1_all_take
    obtain ⟨n, hn⟩ := stripTrailU_eq_take (stripLeadU (collapseUnderscores
      (s.toList.map fun c => if unsafeFilenameChar c then '_' else c)))
    rw [sanitizePre, hn]
    apply take1_all_take
    rw [stripLeadU]
    exact take1_beq_dropWhile _
  · show List.Chain' noAdjU ((sanitizePre s).take 50)
    obtain ⟨n, hn⟩ := stripTrailU_eq_take (stripLeadU (collapseUnderscores
      (s.toList.map fun c => if unsafeFilenameChar c then '_' else c)))
    obtain ⟨k, hk⟩ := dropWhile_eq_drop (fun c => decide (c = '_'))
      (collapseUnderscores (s.toList.map fun c => if unsafeFilenameChar c then '_' else c))
    rw [sanitizePre, hn, stripLeadU, hk]
    exact (((chain'_collapseUnderscores _).drop k).take n).take 50
  · exact List.length_take_le _ _

/-- A 60-character seed whose sanitized form is truncated right after an
underscore. -/
def overlongSeed : String :=
  String.mk (List.replicate 49 'a' ++ ' ' :: List.replicate 10 'b')

/-- C9 counterexample.  Sanitizing 49 letters, a space, and 10 letters gives
`49×a ++ "_" ++ 10×b` (61 > 50 characters), which the final cap truncates to
50 characters ending in an underscore — so the sanitized component is not
free of trailing underscores as claimed. -/
theorem C9_counterexample :
    overlongSeed.length = 60 ∧
    (sanitize_filename overlongSeed).length = 50 ∧
    (sanitize_filename overlongSeed).toList.getLastD 'x' = '_' := by
  exact ⟨by decide, by decide, by decide⟩
